import Mathlib

/-!
# Verification of the cuIBM Navier-Stokes solver core

Shallow embedding of the fractional-step (projection) Navier-Stokes solver
declared in `src/include/solvers/NavierStokes/NavierStokesSolver.h`.

The header under verification declares the solver class; apart from two
inline bodies (`generateQT(int*, int*, real*)`, which is empty, and
`name()`, which returns the literal `"Navier-Stokes"`), the method
definitions live outside the sources available here, so every modelled
operation carries a doc comment `Modelled from the spec:` naming the
missing definition and following the specification's words.

Fields are embedded over `ℚ` (exact arithmetic); sparse matrices become
Mathlib matrices over `Fin` index types; the two iterative linear solves
become relational constraints (the returned vector satisfies the system),
which keeps the model faithful to "solve A·x = b" without committing to a
particular Krylov iteration.
-/

namespace CuIBM

open Matrix

/-- Phases of one sub-step of `stepTime`, in the order the driver invokes
them; used to reason about the temporal contract of the stepping loop. -/
inductive Event where
  | assembleRHS1
  | solveIntermediateVelocity
  | assembleRHS2
  | solvePoisson
  | projection
  | updateBoundaryConditions
  | updateSolverState
deriving DecidableEq, Repr

/-- Modelled from the spec: the sparse operators and scheme coefficients held
by `NavierStokesSolver` (`M`, `L`, `A`, `BN`, `Q`, `QT`, the boundary
buffers `bc1`/`bc2`, and the integration-scheme weights).  `Nconv q` is the
advection operator linearised at the flux `q`, so the explicit convective
term is `(Nconv q) · q`, quadratic in `q`. -/
structure NSOps (m n : ℕ) where
  A : Matrix (Fin m) (Fin m) ℚ
  BN : Matrix (Fin m) (Fin m) ℚ
  Q : Matrix (Fin m) (Fin n) ℚ
  QT : Matrix (Fin n) (Fin m) ℚ
  Mmat : Matrix (Fin m) (Fin m) ℚ
  L : Matrix (Fin m) (Fin m) ℚ
  Nconv : (Fin m → ℚ) → Matrix (Fin m) (Fin m) ℚ
  bc1 : Fin m → ℚ
  bc2 : Fin n → ℚ
  dtInv : ℚ
  gamma : ℚ
  zeta : ℚ
  beta : ℚ

/-- Modelled from the spec: the mutable per-step state of the solver — the
flux field `q`, the intermediate flux `qStar`, the multiplier field
`lambda`, the explicit-term history `H`, and (for temporal reasoning) the
trace of phases executed so far. -/
structure NSState (m n : ℕ) where
  q : Fin m → ℚ
  qStar : Fin m → ℚ
  lambda : Fin n → ℚ
  H : Fin m → ℚ
  trace : List Event

/-- Modelled from the spec: the explicit convective + diffusive term
evaluated at a flux field (the quantity stored in `rn`/`H`). -/
def explicitTerm {m n : ℕ} (ops : NSOps m n) (q : Fin m → ℚ) : Fin m → ℚ :=
  (ops.Nconv q).mulVec q + ops.beta • ops.L.mulVec q

/-- Modelled from the spec: `generateRN` — scaled previous flux plus the
scheme-weighted combination of the current explicit term and its history. -/
def generateRN {m n : ℕ} (ops : NSOps m n) (s : NSState m n) : Fin m → ℚ :=
  ops.dtInv • ops.Mmat.mulVec s.q + ops.gamma • explicitTerm ops s.q + ops.zeta • s.H

/-- Modelled from the spec: `assembleRHS1` — the right-hand side of the
intermediate-velocity solve: `rn` plus the boundary contribution `bc1`. -/
def assembleRHS1 {m n : ℕ} (ops : NSOps m n) (s : NSState m n) : Fin m → ℚ :=
  generateRN ops s + ops.bc1

/-- Modelled from the spec: `assembleRHS2` — the right-hand side of the
pressure/force solve: the divergence `QT · qStar` of the intermediate flux
minus the boundary contribution `bc2`. -/
def assembleRHS2 {m n : ℕ} (ops : NSOps m n) (qStar : Fin m → ℚ) : Fin n → ℚ :=
  ops.QT.mulVec qStar - ops.bc2

/-- Modelled from the spec: `generateC` — the Schur complement
`C = QT · BN · Q`. -/
def generateC {m n : ℕ} (ops : NSOps m n) : Matrix (Fin n) (Fin n) ℚ :=
  ops.QT * ops.BN * ops.Q

/-- Modelled from the spec: `generateBN` — the truncated Neumann/Taylor
series approximation to `A⁻¹`, built in Horner form: order 0 is `Minv`,
and each further order wraps the previous one as `Minv + (I − A) · BN`. -/
def generateBN {m : ℕ} : ℕ → Matrix (Fin m) (Fin m) ℚ → Matrix (Fin m) (Fin m) ℚ →
    Matrix (Fin m) (Fin m) ℚ
  | 0, _, Minv => Minv
  | nOrd + 1, A, Minv => Minv + (1 - A) * generateBN nOrd A Minv

/-- Modelled from the spec: `projectionStep` — overwrite the flux with
`qStar − BN·Q·lambda`; every other field of the state is untouched (the
stale `qStar` remains as scratch). -/
def projectionStep {m n : ℕ} (ops : NSOps m n) (s : NSState m n) : NSState m n :=
  { s with q := s.qStar - (ops.BN * ops.Q).mulVec s.lambda,
           trace := s.trace ++ [Event.projection] }

/-- The list of phases one sub-step of `stepTime` appends to the trace, in
execution order. -/
def substepEvents : List Event :=
  [Event.assembleRHS1, Event.solveIntermediateVelocity, Event.assembleRHS2,
   Event.solvePoisson, Event.projection,
   Event.updateBoundaryConditions, Event.updateSolverState]

/-- Modelled from the spec: the state produced by one sub-step of `stepTime`
once the two linear solves have returned `qStar` and `lambda`: record the
solve results, apply `projectionStep`, then advance the explicit-term
history (`updateSolverState`). -/
def substepResult {m n : ℕ} (ops : NSOps m n) (s : NSState m n)
    (qStar : Fin m → ℚ) (lambda : Fin n → ℚ) : NSState m n :=
  let solved : NSState m n :=
    { q := s.q, qStar := qStar, lambda := lambda, H := s.H,
      trace := s.trace ++ [Event.assembleRHS1, Event.solveIntermediateVelocity,
                           Event.assembleRHS2, Event.solvePoisson] }
  let projected := projectionStep ops solved
  { projected with
      H := explicitTerm ops s.q,
      trace := projected.trace ++ [Event.updateBoundaryConditions,
                                   Event.updateSolverState] }

/-- Modelled from the spec: one sub-step of `stepTime` — assemble `rhs1`,
solve `A·qStar = rhs1`, assemble `rhs2` from that `qStar`, solve
`C·lambda = rhs2`, project, then update boundary buffers and solver state.
The two solves are relational: the returned vectors satisfy their
systems. -/
def substep {m n : ℕ} (ops : NSOps m n) (s s' : NSState m n) : Prop :=
  ∃ qStar lambda,
    ops.A.mulVec qStar = assembleRHS1 ops s ∧
    (generateC ops).mulVec lambda = assembleRHS2 ops qStar ∧
    s' = substepResult ops s qStar lambda

/-- Modelled from the spec: the stepping loop — `run ops k s s'` holds when
`s'` is reachable from `s` by exactly `k` sub-steps of `stepTime`. -/
def run {m n : ℕ} (ops : NSOps m n) : ℕ → NSState m n → NSState m n → Prop
  | 0, s, s' => s' = s
  | k + 1, s, s'' => ∃ s', run ops k s s' ∧ substep ops s' s''

/-- Embedded from the source (`NavierStokesSolver.h`, line 91): the
three-argument overload `generateQT(int *QTRows, int *QTCols, real *QTVals)`
has an empty body `{}`; as a transformer of the three buffers it is the
identity. -/
def generateQT (QTRows QTCols : List Int) (QTVals : List ℚ) :
    List Int × List Int × List ℚ :=
  (QTRows, QTCols, QTVals)

/-- Embedded from the source (`NavierStokesSolver.h`, lines 153–156): the
base class `name()` body. -/
def name : String := "Navier-Stokes"

/-- A machine value as seen by the solve diagnostics: finite, NaN or
infinite.  Only finiteness matters to the breakdown check, so the model
keeps the finite payload exact. -/
inductive FP where
  | finite : ℚ → FP
  | nan : FP
  | inf : FP
deriving DecidableEq, Repr

/-- Whether a machine value is finite (neither NaN nor infinite). -/
def FP.isFinite : FP → Bool
  | FP.finite _ => true
  | FP.nan => false
  | FP.inf => false

/-- The three ways a linear solve can be reported: converged, iteration cap
reached before tolerance (ordinary non-convergence), or numerical
breakdown (NaN/Inf encountered). -/
inductive SolveStatus where
  | converged
  | nonConverged
  | numericalBreakdown
deriving DecidableEq, Repr

/-- Modelled from the spec: the diagnostic performed after each of the two
linear solves (`solveIntermediateVelocity`, `solvePoisson`) — NaN/Inf in
the residual or the solution is surfaced as `numericalBreakdown`, a status
distinct from the iteration-cap `nonConverged` outcome. -/
def classifySolve (residual solution : List FP) (withinTol : Bool) : SolveStatus :=
  if (residual ++ solution).any (fun x => !FP.isFinite x) then
    SolveStatus.numericalBreakdown
  else if withinTol then SolveStatus.converged
  else SolveStatus.nonConverged

/-- Concrete 1×1 operator set used to instantiate theorems: identity
matrices, zero boundary data, unit coefficients. -/
def opsW : NSOps 1 1 where
  A := 1
  BN := 1
  Q := 1
  QT := 1
  Mmat := 1
  L := 1
  Nconv := fun _ => 1
  bc1 := 0
  bc2 := 0
  dtInv := 1
  gamma := 1
  zeta := 1
  beta := 1

/-- Concrete quiescent state: all fields zero, empty trace. -/
def stateW : NSState 1 1 :=
  { q := 0, qStar := 0, lambda := 0, H := 0, trace := [] }

/-! ## Helper lemmas -/

/-- `generateBN` commutes with `A` whenever `A` commutes with `Minv`. -/
lemma generateBN_comm {m : ℕ} (nOrd : ℕ) (A Minv : Matrix (Fin m) (Fin m) ℚ)
    (hcomm : A * Minv = Minv * A) :
    A * generateBN nOrd A Minv = generateBN nOrd A Minv * A := by
  induction nOrd with
  | zero => simpa [generateBN] using hcomm
  | succ k ih =>
      simp only [generateBN, mul_add, add_mul]
      rw [hcomm]
      congr 1
      calc A * ((1 - A) * generateBN k A Minv)
          = (A * (1 - A)) * generateBN k A Minv := by rw [mul_assoc]
        _ = ((1 - A) * A) * generateBN k A Minv := by rw [mul_one_sub, one_sub_mul]
        _ = (1 - A) * (A * generateBN k A Minv) := by rw [mul_assoc]
        _ = (1 - A) * (generateBN k A Minv * A) := by rw [ih]
        _ = (1 - A) * generateBN k A Minv * A := by rw [mul_assoc]

/-- The Neumann-series matrix is symmetric when `A` and `Minv` are symmetric
and commute. -/
lemma generateBN_transpose {m : ℕ} (nOrd : ℕ) (A Minv : Matrix (Fin m) (Fin m) ℚ)
    (hA : Aᵀ = A) (hM : Minvᵀ = Minv) (hcomm : A * Minv = Minv * A) :
    (generateBN nOrd A Minv)ᵀ = generateBN nOrd A Minv := by
  induction nOrd with
  | zero => simpa [generateBN] using hM
  | succ k ih =>
      simp only [generateBN, Matrix.transpose_add, Matrix.transpose_mul,
        Matrix.transpose_sub, Matrix.transpose_one, hA, hM, ih]
      congr 1
      rw [mul_one_sub, one_sub_mul, generateBN_comm k A Minv hcomm]

/-- One quiescent sub-step keeps the flux and explicit-term history at
zero. -/
lemma substep_quiescent {m n : ℕ} (ops : NSOps m n) (s s' : NSState m n)
    (hbc1 : ops.bc1 = 0) (hbc2 : ops.bc2 = 0)
    (hA : Function.Injective ops.A.mulVec)
    (hC : Function.Injective (generateC ops).mulVec)
    (h : substep ops s s') (hq : s.q = 0) (hH : s.H = 0) :
    s'.q = 0 ∧ s'.H = 0 := by
  obtain ⟨qStar, lambda, h1, h2, rfl⟩ := h
  have hrhs1 : assembleRHS1 ops s = 0 := by
    simp [assembleRHS1, generateRN, explicitTerm, hq, hH, hbc1, Matrix.mulVec_zero]
  have hqStar : qStar = 0 := hA (by rw [h1, hrhs1, Matrix.mulVec_zero])
  have hrhs2 : assembleRHS2 ops qStar = 0 := by
    simp [assembleRHS2, hqStar, hbc2, Matrix.mulVec_zero]
  have hlambda : lambda = 0 := hC (by rw [h2, hrhs2, Matrix.mulVec_zero])
  constructor
  · simp [substepResult, projectionStep, hqStar, hlambda, Matrix.mulVec_zero]
  · simp [substepResult, projectionStep, explicitTerm, hq, Matrix.mulVec_zero]

/-- Quiescence is preserved along any run of sub-steps. -/
lemma run_quiescent {m n : ℕ} (ops : NSOps m n) (N : ℕ) (s s' : NSState m n)
    (hbc1 : ops.bc1 = 0) (hbc2 : ops.bc2 = 0)
    (hA : Function.Injective ops.A.mulVec)
    (hC : Function.Injective (generateC ops).mulVec)
    (hrun : run ops N s s') (hq : s.q = 0) (hH : s.H = 0) :
    s'.q = 0 ∧ s'.H = 0 := by
  induction N generalizing s' with
  | zero =>
      rw [run] at hrun
      exact hrun ▸ ⟨hq, hH⟩
  | succ k ih =>
      obtain ⟨t, hrunk, hstep⟩ := hrun
      obtain ⟨htq, htH⟩ := ih t hrunk
      exact substep_quiescent ops t s' hbc1 hbc2 hA hC hstep htq htH

/-- The concrete fixture performs one legitimate sub-step from the quiescent
state: both solves are satisfied by the zero vector. -/
lemma substepW : substep opsW stateW (substepResult opsW stateW 0 0) := by
  refine ⟨0, 0, ?_, ?_, rfl⟩
  · simp [opsW, stateW, assembleRHS1, generateRN, explicitTerm, Matrix.mulVec_zero]
  · simp [opsW, stateW, generateC, assembleRHS2, Matrix.mulVec_zero]

/-- The identity operators of the fixture give injective solves. -/
lemma opsW_injective :
    Function.Injective opsW.A.mulVec ∧ Function.Injective (generateC opsW).mulVec := by
  constructor
  · intro a b h
    simpa [opsW, Matrix.one_mulVec] using h
  · intro a b h
    simpa [generateC, opsW, Matrix.one_mulVec] using h

/-! ## Claim theorems -/

/-- C1: `projectionStep` computes the new flux as `q_new = qStar − BN·Q·lambda`
in one non-iterative linear update — both as the standalone state update
(which overwrites `q` and leaves `qStar`, `lambda` and `H` untouched) and
inside every sub-step, where the projected flux is exactly the sub-step's
`qStar` minus `BN·Q·lambda` and the stale `qStar` is kept as scratch. -/
theorem projectionStep_formula {m n : ℕ} (ops : NSOps m n) (s : NSState m n)
    (qStar : Fin m → ℚ) (lambda : Fin n → ℚ) :
    (projectionStep ops s).q = s.qStar - (ops.BN * ops.Q).mulVec s.lambda ∧
    (projectionStep ops s).qStar = s.qStar ∧
    (projectionStep ops s).lambda = s.lambda ∧
    (projectionStep ops s).H = s.H ∧
    (substepResult ops s qStar lambda).q = qStar - (ops.BN * ops.Q).mulVec lambda ∧
    (substepResult ops s qStar lambda).qStar = qStar :=
  ⟨rfl, rfl, rfl, rfl, rfl, rfl⟩

/-- C2: `generateBN`, built in Horner form, equals the truncated
Neumann/Taylor series `∑_{k=0}^{n} (I − A)^k · Minv` for every matrix `A`,
every `Minv` and every configured series order. -/
theorem generateBN_neumann_series {m : ℕ} (nOrd : ℕ)
    (A Minv : Matrix (Fin m) (Fin m) ℚ) :
    generateBN nOrd A Minv = ∑ k ∈ Finset.range (nOrd + 1), (1 - A) ^ k * Minv := by
  induction nOrd with
  | zero => simp [generateBN]
  | succ k ih =>
      rw [generateBN, ih, Finset.mul_sum]
      conv_rhs => rw [Finset.sum_range_succ']
      simp only [pow_zero, one_mul, pow_succ', mul_assoc]
      exact add_comm _ _

/-- C3: after the projection step, the discrete divergence `QT·q_new` is
within the solver tolerance of the boundary-prescribed divergence `bc2`,
provided the Poisson solve met that tolerance componentwise (for a closed,
non-deforming boundary `bc2 = 0`). -/
theorem projected_divergence_within_tol {m n : ℕ} (ops : NSOps m n)
    (s : NSState m n) (tol : ℚ)
    (h : ∀ i, |(generateC ops).mulVec s.lambda i - assembleRHS2 ops s.qStar i| ≤ tol) :
    ∀ i, |ops.QT.mulVec (projectionStep ops s).q i - ops.bc2 i| ≤ tol := by
  intro i
  have key : ops.QT.mulVec (projectionStep ops s).q i - ops.bc2 i
      = -((generateC ops).mulVec s.lambda i - assembleRHS2 ops s.qStar i) := by
    simp only [projectionStep, generateC, assembleRHS2, Matrix.mulVec_sub,
      Matrix.mulVec_mulVec, Pi.sub_apply, Matrix.mul_assoc]
    ring
  rw [key, abs_neg]
  exact h i

/-- Witness for C3 at the concrete 1×1 fixture with an exact solve and zero
tolerance. -/
theorem projected_divergence_within_tol_witness :
    |opsW.QT.mulVec (projectionStep opsW stateW).q 0 - opsW.bc2 0| ≤ 0 :=
  projected_divergence_within_tol opsW stateW 0
    (fun i => by simp [opsW, stateW, generateC, assembleRHS2, Matrix.mulVec_zero]) 0

/-- C4: in every sub-step the pressure/force solve happens only after the
intermediate-velocity solve: the sub-step's `lambda` satisfies the Schur
system whose right-hand side is assembled from the very `qStar` that solves
the intermediate-velocity system for this sub-step's `rhs1`, and the
recorded trace extends by the phases in the fixed order RHS1 assembly,
intermediate-velocity solve, RHS2 assembly, Poisson solve, projection,
boundary-condition update, solver-state update. -/
theorem substep_order_and_dataflow {m n : ℕ} (ops : NSOps m n)
    (s s' : NSState m n) (h : substep ops s s') :
    ops.A.mulVec s'.qStar = assembleRHS1 ops s ∧
    (generateC ops).mulVec s'.lambda = assembleRHS2 ops s'.qStar ∧
    s'.trace = s.trace ++ substepEvents ∧
    List.Sublist [Event.assembleRHS1, Event.solveIntermediateVelocity,
      Event.solvePoisson, Event.projection] substepEvents := by
  obtain ⟨qStar, lambda, h1, h2, rfl⟩ := h
  refine ⟨?_, ?_, ?_, ?_⟩
  · simpa [substepResult, projectionStep] using h1
  · simpa [substepResult, projectionStep] using h2
  · simp [substepResult, projectionStep, substepEvents]
  · decide

/-- Witness for C4: the fixture's sub-step from the quiescent state. -/
theorem substep_order_and_dataflow_witness :
    opsW.A.mulVec (substepResult opsW stateW 0 0).qStar = assembleRHS1 opsW stateW ∧
    (generateC opsW).mulVec (substepResult opsW stateW 0 0).lambda
      = assembleRHS2 opsW (substepResult opsW stateW 0 0).qStar ∧
    (substepResult opsW stateW 0 0).trace = stateW.trace ++ substepEvents ∧
    List.Sublist [Event.assembleRHS1, Event.solveIntermediateVelocity,
      Event.solvePoisson, Event.projection] substepEvents :=
  substep_order_and_dataflow opsW stateW (substepResult opsW stateW 0 0) substepW

/-- C5: when `BN` is the Neumann series built on a symmetric `A` (with a
symmetric, commuting `Minv`) and `QT` is the transpose of `Q`, the Schur
complement produced by `generateC` is exactly symmetric. -/
theorem generateC_symmetric {m n : ℕ} (ops : NSOps m n) (nOrd : ℕ)
    (A Minv : Matrix (Fin m) (Fin m) ℚ)
    (hA : Aᵀ = A) (hM : Minvᵀ = Minv) (hcomm : A * Minv = Minv * A)
    (hBN : ops.BN = generateBN nOrd A Minv) (hQT : ops.QT = ops.Qᵀ) :
    (generateC ops)ᵀ = generateC ops := by
  unfold generateC
  rw [hQT, hBN]
  rw [Matrix.transpose_mul, Matrix.transpose_mul, Matrix.transpose_transpose,
    generateBN_transpose nOrd A Minv hA hM hcomm, Matrix.mul_assoc]

/-- Witness for C5 at the 1×1 fixture with the order-1 Neumann series on the
identity. -/
theorem generateC_symmetric_witness : (generateC opsW)ᵀ = generateC opsW :=
  generateC_symmetric opsW 1 1 1 Matrix.transpose_one Matrix.transpose_one rfl
    (by simp [opsW, generateBN]) (by simp [opsW])

/-- C6: from an all-zero flux with zero explicit-term history, zero boundary
data and uniquely solvable systems, the flux is still exactly zero after
every number of sub-steps — stepping never generates spurious flow. -/
theorem quiescent_flux_stays_zero {m n : ℕ} (ops : NSOps m n) (N : ℕ)
    (s s' : NSState m n)
    (hbc1 : ops.bc1 = 0) (hbc2 : ops.bc2 = 0)
    (hA : Function.Injective ops.A.mulVec)
    (hC : Function.Injective (generateC ops).mulVec)
    (hrun : run ops N s s') (hq : s.q = 0) (hH : s.H = 0) :
    s'.q = 0 :=
  (run_quiescent ops N s s' hbc1 hbc2 hA hC hrun hq hH).1

/-- Witness for C6: one sub-step of the fixture from the quiescent state. -/
theorem quiescent_flux_stays_zero_witness : (substepResult opsW stateW 0 0).q = 0 :=
  quiescent_flux_stays_zero opsW 1 stateW (substepResult opsW stateW 0 0)
    rfl rfl opsW_injective.1 opsW_injective.2
    ⟨stateW, rfl, substepW⟩ rfl rfl

/-- C7: the stepping loop is deterministic — two runs of the same length
from the same state under the same operators end in identical states
(identical `q`, `qStar`, `lambda`, history and trace), provided the two
linear systems are uniquely solvable. -/
theorem run_deterministic {m n : ℕ} (ops : NSOps m n) (N : ℕ)
    (s s₁ s₂ : NSState m n)
    (hA : Function.Injective ops.A.mulVec)
    (hC : Function.Injective (generateC ops).mulVec)
    (h₁ : run ops N s s₁) (h₂ : run ops N s s₂) :
    s₁ = s₂ := by
  induction N generalizing s₁ s₂ with
  | zero =>
      rw [run] at h₁ h₂
      rw [h₁, h₂]
  | succ k ih =>
      obtain ⟨t₁, hr₁, hs₁⟩ := h₁
      obtain ⟨t₂, hr₂, hs₂⟩ := h₂
      obtain rfl := ih t₁ t₂ hr₁ hr₂
      obtain ⟨qa, la, ha1, ha2, rfl⟩ := hs₁
      obtain ⟨qb, lb, hb1, hb2, rfl⟩ := hs₂
      obtain rfl : qa = qb := hA (by rw [ha1, hb1])
      obtain rfl : la = lb := hC (by rw [ha2, hb2])
      rfl

/-- Witness for C7: two one-sub-step runs of the fixture agree. -/
theorem run_deterministic_witness :
    substepResult opsW stateW 0 0 = substepResult opsW stateW 0 0 :=
  run_deterministic opsW 1 stateW (substepResult opsW stateW 0 0)
    (substepResult opsW stateW 0 0) opsW_injective.1 opsW_injective.2
    ⟨stateW, rfl, substepW⟩ ⟨stateW, rfl, substepW⟩

/-- C8: a NaN or Inf in the residual or solution of a solve is classified as
`numericalBreakdown`, a status distinct from the iteration-cap
`nonConverged` outcome, regardless of the tolerance flag. -/
theorem breakdown_detected (residual solution : List FP) (withinTol : Bool)
    (h : (residual ++ solution).any (fun x => !FP.isFinite x) = true) :
    classifySolve residual solution withinTol = SolveStatus.numericalBreakdown ∧
    classifySolve residual solution withinTol ≠ SolveStatus.nonConverged := by
  constructor
  · simp [classifySolve, h]
  · simp [classifySolve, h]

/-- Witness for C8: a NaN residual entry is reported as breakdown. -/
theorem breakdown_detected_witness :
    classifySolve [FP.nan] [] false = SolveStatus.numericalBreakdown ∧
    classifySolve [FP.nan] [] false ≠ SolveStatus.nonConverged :=
  breakdown_detected [FP.nan] [] false (by decide)

/-- C9: the three-argument overload `generateQT(QTRows, QTCols, QTVals)` of
the base solver has an empty body: it returns all three buffers
unchanged. -/
theorem generateQT_noop (QTRows QTCols : List Int) (QTVals : List ℚ) :
    generateQT QTRows QTCols QTVals = (QTRows, QTCols, QTVals) :=
  rfl

/-- C10: the base solver's `name()` returns exactly "Navier-Stokes",
independent of any state. -/
theorem name_is_navier_stokes : name = "Navier-Stokes" :=
  rfl

end CuIBM
